import Mathlib

/-!
Verification of the dump/load reconciliation engine of `elastic-stacker`
(`src/elastic_stacker`): the key-path pruner, the text substitution engine,
the file-backed resource store, the two depaginators, the transform
load/dump orchestrators and the system-level driver.

Documents are JSON-compatible values; stateful code is embedded as explicit
state passing (event traces, remaining-file lists); the external Python
collaborators (`re`, `json`, the HTTP client, the filesystem) are modelled
at their interface boundary (an abstract compiled-pattern type, an abstract
serializer/parser pair, per-call failure oracles and explicit file lists).
-/

/-- JSON-compatible documents, as produced by `json.load`:
objects are association lists of string keys to values. -/
inductive Json where
  | null : Json
  | bool (b : Bool) : Json
  | num (n : Int) : Json
  | str (s : String) : Json
  | arr (xs : List Json) : Json
  | obj (fields : List (String × Json)) : Json

-- Python `==` on decoded JSON values, mirroring `dict.__eq__` /
-- `list.__eq__`: dictionaries compare by key lookup (order-insensitive),
-- lists element-wise in order.
mutual

/-- Python `==` on decoded JSON values. -/
def jsonEq : Json → Json → Bool
  | Json.null, Json.null => true
  | Json.bool a, Json.bool b => a == b
  | Json.num a, Json.num b => a == b
  | Json.str a, Json.str b => a == b
  | Json.arr xs, Json.arr ys => jsonEqList xs ys
  | Json.obj xs, Json.obj ys => xs.length == ys.length && jsonObjSub xs ys
  | _, _ => false
termination_by a b => sizeOf a + sizeOf b

/-- Element-wise Python `==` of two lists. -/
def jsonEqList : List Json → List Json → Bool
  | [], [] => true
  | x :: xs, y :: ys => jsonEq x y && jsonEqList xs ys
  | _, _ => false
termination_by xs ys => sizeOf xs + sizeOf ys

/-- Every key of the first object is present in the second with an equal
value. -/
def jsonObjSub : List (String × Json) → List (String × Json) → Bool
  | [], _ => true
  | (k, v) :: rest, ys => jsonFindEq k v ys && jsonObjSub rest ys
termination_by xs ys => sizeOf xs + sizeOf ys

/-- The second object maps key `k` to a value Python-equal to `v`. -/
def jsonFindEq (k : String) (v : Json) : List (String × Json) → Bool
  | [] => false
  | (k', w) :: rest => if k == k' then jsonEq v w else jsonFindEq k v rest
termination_by ys => sizeOf v + sizeOf ys

end

/-! ## Key-path pruner (`utils/controller.py`, `without_keys` / `_without_keys`)

`_without_keys` builds, at each level, a `delete_map` sending each first
path segment either to "delete this key at this level" (when some path is
the bare segment) or to the set of suffix paths to delete below it; it then
deletes the marked keys and recurses only into keys that have pending
suffixes and whose value is a dict. A bare-segment path always wins over
suffixes for the same head, whatever the set iteration order, so the map is
order-independent and is embedded as two functions of the path list. -/

/-- Python `delete_map[k] is None`: some path is exactly `[k]`, so the key is
deleted at this level. -/
def deleteHere (paths : List (List String)) (k : String) : Bool :=
  paths.contains [k]

/-- The suffix paths `key[1:]` of every multi-segment path whose head is
`k` (the entries accumulated into `delete_map[k]`). -/
def suffixesFor (paths : List (List String)) (k : String) : List (List String) :=
  paths.filterMap fun p =>
    match p with
    | k' :: s :: rest => if k' == k then some (s :: rest) else none
    | _ => none

/-- The recursive worker `_without_keys(d, keys)`: walk the fields once,
dropping keys marked for deletion at this level and recursing into dict
values that still have suffix paths below them; every other field — in
particular a scalar or list sitting under a longer path — is kept
unchanged. -/
def pruneFields : List (String × Json) → List (List String) → List (String × Json)
  | [], _ => []
  | (k, v) :: rest, paths =>
    if deleteHere paths k then pruneFields rest paths
    else
      match v, suffixesFor paths k with
      | Json.obj fs, s :: ss =>
        (k, Json.obj (pruneFields fs (s :: ss))) :: pruneFields rest paths
      | _, _ => (k, v) :: pruneFields rest paths
termination_by d _ => sizeOf d
decreasing_by all_goals (simp_wf <;> omega)

/-- Worker for `splitDots`, mirroring Python `str.split(".")` over the
character list: accumulate the current segment, emitting it at every dot. -/
def splitDotsAux : List Char → String → List String
  | [], cur => [cur]
  | c :: cs, cur =>
    if c = '.' then cur :: splitDotsAux cs "" else splitDotsAux cs (cur.push c)

/-- Python `key.split(".")`. -/
def splitDots (s : String) : List String :=
  splitDotsAux s.data ""

/-- Python `without_keys(d, keys)`: split each dotted key at the dots and hand the
path set to the worker. -/
def without_keys (d : List (String × Json)) (keys : List String) : List (String × Json) :=
  pruneFields d (keys.map splitDots)

theorem pruneFields_nil (p : List (List String)) : pruneFields [] p = [] := by
  rw [pruneFields.eq_def]

theorem pruneFields_cons_del {p : List (List String)} {k : String} (v : Json)
    (rest : List (String × Json)) (hdel : deleteHere p k = true) :
    pruneFields ((k, v) :: rest) p = pruneFields rest p := by
  rw [pruneFields.eq_def]
  simp only [hdel, if_true]

theorem pruneFields_cons_obj {p : List (List String)} {k : String}
    {s : List String} {ss : List (List String)} (fs rest : List (String × Json))
    (hdel : deleteHere p k = false) (hsfx : suffixesFor p k = s :: ss) :
    pruneFields ((k, Json.obj fs) :: rest) p
      = (k, Json.obj (pruneFields fs (s :: ss))) :: pruneFields rest p := by
  rw [pruneFields.eq_def]
  simp only [hdel, Bool.false_eq_true, if_false, hsfx]

theorem pruneFields_cons_keep {p : List (List String)} {k : String} {v : Json}
    (rest : List (String × Json)) (hdel : deleteHere p k = false)
    (hkeep : ∀ (fs : List (String × Json)) (s : List String) (ss : List (List String)),
      v = Json.obj fs → suffixesFor p k = s :: ss → False) :
    pruneFields ((k, v) :: rest) p = (k, v) :: pruneFields rest p := by
  rw [pruneFields.eq_def]
  simp only [hdel, Bool.false_eq_true, if_false]

/-- The pruner is idempotent at the worker level: pruning an already-pruned
field list with the same path set changes nothing. -/
theorem pruneFields_idem (d : List (String × Json)) (p : List (List String)) :
    pruneFields (pruneFields d p) p = pruneFields d p := by
  induction d, p using pruneFields.induct with
  | case1 p => simp [pruneFields_nil]
  | case2 k v rest p hdel ih =>
    rw [pruneFields_cons_del v rest hdel]
    exact ih
  | case3 k rest p hdel fs s ss hsfx ih1 ih2 =>
    have hdel' : deleteHere p k = false := by
      cases h : deleteHere p k
      · rfl
      · exact absurd h hdel
    rw [pruneFields_cons_obj fs rest hdel' hsfx]
    rw [pruneFields_cons_obj (pruneFields fs (s :: ss)) (pruneFields rest p) hdel' hsfx]
    rw [ih1, ih2]
  | case4 k v rest p hdel hkeep ih =>
    have hdel' : deleteHere p k = false := by
      cases h : deleteHere p k
      · rfl
      · exact absurd h hdel
    have hkeep' : ∀ (fs : List (String × Json)) (s : List String) (ss : List (List String)),
        v = Json.obj fs → suffixesFor p k = s :: ss → False := fun fs s ss h1 h2 =>
      hkeep fs s ss h1 h2
    rw [pruneFields_cons_keep rest hdel' hkeep']
    rw [pruneFields_cons_keep (pruneFields rest p) hdel' hkeep']
    rw [ih]

/-- C4: the key-path pruner is idempotent — `prune(prune(D, P), P) ==
prune(D, P)` for every document `D` and every set `P` of dotted key-paths —
and a path that is partially absent, or whose intermediate segment is a
scalar or a list rather than a nested document, is silently skipped: the
document comes back unchanged rather than raising. -/
theorem without_keys_idempotent :
    (∀ (d : List (String × Json)) (keys : List String),
        without_keys (without_keys d keys) keys = without_keys d keys) ∧
    without_keys [("a", Json.num 1)] ["a.b"] = [("a", Json.num 1)] ∧
    without_keys [("a", Json.arr [Json.num 1, Json.num 2])] ["a.b"]
      = [("a", Json.arr [Json.num 1, Json.num 2])] ∧
    without_keys [("x", Json.obj [("y", Json.num 1)])] ["x.z.w"]
      = [("x", Json.obj [("y", Json.num 1)])] := by
  refine ⟨fun d keys => pruneFields_idem d _, ?_, ?_, ?_⟩ <;>
  · simp only [without_keys, show splitDots "a.b" = ["a", "b"] from by decide,
      show splitDots "x.z.w" = ["x", "z", "w"] from by decide, List.map]
    simp [pruneFields.eq_def, deleteHere, suffixesFor]

/-! ## Text substitution engine (`GenericController._run_substitutions`)

A substitution rule set is a name-keyed collection of compiled search
patterns and replacement strings, applied to serialized text in name-sorted
order (`sorted(self._subs.items())`). The Python `re` module is an external
collaborator, modelled at its interface boundary: `hasMatch` is whether the
compiled pattern matches anywhere in the text, `apply` is
`re.sub(search, replace, ·)`, and `apply_of_no_match` is the `re.sub`
contract that zero matches leave the text unchanged. -/

structure SubRule where
  hasMatch : String → Bool
  apply : String → String
  apply_of_no_match : ∀ s, hasMatch s = false → apply s = s

/-- Lexicographic code-point comparison of two character lists (the order
Python `sorted` uses on strings). -/
def charListLe : List Char → List Char → Bool
  | [], _ => true
  | _ :: _, [] => false
  | a :: as, b :: bs =>
    if a.toNat = b.toNat then charListLe as bs else decide (a.toNat < b.toNat)

/-- Lexicographic string comparison. -/
def strLe (a b : String) : Bool :=
  charListLe a.data b.data

/-- Insert one named entry into a name-sorted association list. -/
def insertByKey {α : Type} (x : String × α) : List (String × α) → List (String × α)
  | [] => [x]
  | y :: ys => if strLe x.1 y.1 then x :: y :: ys else y :: insertByKey x ys

/-- Python `sorted(items)` on a name-keyed association list. -/
def sortByKey {α : Type} (l : List (String × α)) : List (String × α) :=
  l.foldr insertByKey []

theorem mem_insertByKey {α : Type} {a x : String × α} {l : List (String × α)} :
    a ∈ insertByKey x l → a = x ∨ a ∈ l := by
  induction l with
  | nil =>
    intro h
    rw [insertByKey] at h
    exact Or.inl (List.mem_singleton.mp h)
  | cons y ys ih =>
    intro h
    rw [insertByKey] at h
    split at h
    · simpa using h
    · rcases List.mem_cons.mp h with h | h
      · exact Or.inr (by simp [h])
      · rcases ih h with h' | h'
        · exact Or.inl h'
        · exact Or.inr (List.mem_cons_of_mem _ h')

theorem mem_sortByKey {α : Type} {a : String × α} {l : List (String × α)} :
    a ∈ sortByKey l → a ∈ l := by
  induction l with
  | nil =>
    intro h
    simp [sortByKey] at h
  | cons y ys ih =>
    intro h
    rw [sortByKey, List.foldr] at h
    rcases mem_insertByKey h with h' | h'
    · simp [h']
    · exact List.mem_cons_of_mem _ (ih h')

/-- Python `_run_substitutions(value)`: apply every rule's `re.sub` to the text,
in name-sorted order. -/
def run_substitutions (subs : List (String × SubRule)) (value : String) : String :=
  (sortByKey subs).foldl (fun acc nsub => nsub.2.apply acc) value

theorem foldl_apply_of_no_match (l : List (String × SubRule)) (t : String)
    (h : ∀ r ∈ l, r.2.hasMatch t = false) :
    l.foldl (fun acc nsub => nsub.2.apply acc) t = t := by
  induction l with
  | nil => rfl
  | cons r rest ih =>
    rw [List.foldl, r.2.apply_of_no_match t (h r (by simp))]
    exact ih (fun r' hr' => h r' (List.mem_cons_of_mem _ hr'))

/-- If no rule's pattern matches the text, the substitution engine is the
identity. -/
theorem run_substitutions_of_no_match (subs : List (String × SubRule)) (t : String)
    (h : ∀ r ∈ subs, r.2.hasMatch t = false) :
    run_substitutions subs t = t :=
  foldl_apply_of_no_match _ t (fun r hr => h r (mem_sortByKey hr))

/-! ## Controller construction (`GenericController.__init__`)

The constructor stores the client and options, compiles every substitution
rule's search pattern in place (`re.compile(sub["search"])`), and
initializes the empty touched-file set. It performs no file or network I/O.
`re.compile` is modelled at the interface boundary as an abstract
`compile : String → Option π` returning `none` exactly when the pattern is
an invalid regular expression (where Python raises `re.error`); the
constructor propagates the first failure as an exception. -/

def controller_init {π : Type} (compile : String → Option π) :
    List (String × String) → Except String (List (String × π))
  | [] => .ok []
  | (name, pat) :: rest =>
    match compile pat with
    | none => .error name
    | some p =>
      match controller_init compile rest with
      | .error e => .error e
      | .ok xs => .ok ((name, p) :: xs)

/-- C9: a controller constructed with a substitution rule set containing an
invalid search pattern raises at construction itself (the constructor does
no file or network I/O, so the failure is before any I/O); a controller
constructed with only valid patterns is built successfully, holding exactly
the compiled form of every rule — first use of the substitution engine
applies these precompiled patterns and never re-compiles or fails. -/
theorem controller_init_fails_fast {π : Type} (compile : String → Option π)
    (subs : List (String × String)) :
    ((∃ r ∈ subs, compile r.2 = none) →
      ∃ e, controller_init compile subs = .error e) ∧
    ((∀ r ∈ subs, (compile r.2).isSome) →
      ∃ rules, controller_init compile subs = .ok rules ∧
        List.Forall₂ (fun (r : String × String) (c : String × π) =>
          r.1 = c.1 ∧ compile r.2 = some c.2) subs rules) := by
  constructor
  · induction subs with
    | nil => rintro ⟨r, hr, hbad⟩; cases hr
    | cons x rest ih =>
      rintro ⟨r, hr, hbad⟩
      rw [show x = (x.1, x.2) from rfl, controller_init]
      rcases List.mem_cons.mp hr with h | h
      · rw [← h, hbad]
        exact ⟨r.1, rfl⟩
      · cases hx : compile x.2 with
        | none => exact ⟨x.1, rfl⟩
        | some p =>
          obtain ⟨e, he⟩ := ih ⟨r, h, hbad⟩
          rw [he]
          exact ⟨e, rfl⟩
  · induction subs with
    | nil => exact fun _ => ⟨[], rfl, List.Forall₂.nil⟩
    | cons x rest ih =>
      intro hval
      obtain ⟨p, hp⟩ := Option.isSome_iff_exists.mp (hval x (by simp))
      obtain ⟨rules, hrules, hfa⟩ := ih (fun r hr => hval r (List.mem_cons_of_mem _ hr))
      refine ⟨(x.1, p) :: rules, ?_, List.Forall₂.cons ⟨rfl, hp⟩ hfa⟩
      rw [show x = (x.1, x.2) from rfl, controller_init, hp, hrules]

/-- Witness: a rule set with the invalid pattern `"("` fails construction;
one with only valid patterns constructs with the patterns compiled. -/
theorem controller_init_fails_fast_witness :
    (∃ e, controller_init (fun s => if s = "(" then none else some s.length)
      [("a", "("), ("b", "x")] = .error e) ∧
    (∃ rules, controller_init (fun s => if s = "(" then none else some s.length)
      [("b", "xy")] = .ok rules ∧
      List.Forall₂ (fun (r : String × String) (c : String × Nat) =>
        r.1 = c.1 ∧ (if r.2 = "(" then none else some r.2.length) = some c.2)
        [("b", "xy")] rules) := by
  constructor
  · exact (controller_init_fails_fast _ _).1 ⟨("a", "("), by simp, by simp⟩
  · exact (controller_init_fails_fast _ _).2 (by simp)

/-! ## File-backed resource store (`GenericController._write_file` / `_read_file`)

`_write_file(path, obj)` prunes the controller's excluded attributes, calls
`json.dumps(obj, indent=4, sort_keys=True)`, applies the substitutions and
writes the text to `path` (recording it in the touched set);
`_read_file(path)` reads the text, applies the substitutions and calls
`json.loads`. The `json` module is an external collaborator: the
serializer/parser pair is passed in at its interface boundary, with the
`loads(dumps(D)) == D` law assumed only where used and exhibited by the
concrete codec below. The filesystem write/read of a single path is the
identity on the text, so the store round-trip composes the two pipelines
directly. -/

def write_file (dumps : List (String × Json) → String)
    (subs : List (String × SubRule)) (excluded : List String)
    (obj : List (String × Json)) : String :=
  run_substitutions subs (dumps (without_keys obj excluded))

def read_file (loads : String → Option (List (String × Json)))
    (subs : List (String × SubRule)) (text : String) :
    Option (List (String × Json)) :=
  loads (run_substitutions subs text)

/-- Pruning with an empty excluded-attribute list (the `GenericController`
default `_excluded_attributes = []`) is the identity. -/
theorem pruneFields_nil_paths (d : List (String × Json)) : pruneFields d [] = d := by
  induction d with
  | nil => exact pruneFields_nil []
  | cons kv rest ih =>
    rw [show kv = (kv.1, kv.2) from rfl]
    rw [pruneFields_cons_keep rest (by rfl)
      (fun fs s ss h1 h2 => by simp [suffixesFor] at h2)]
    rw [ih]

theorem without_keys_nil (d : List (String × Json)) : without_keys d [] = d := by
  rw [without_keys, List.map, pruneFields_nil_paths]

/-- C5: write-then-read round-trips. For every document `D`, every
substitution rule set and every serializer/parser pair satisfying the
`json` round-trip law at `D` (parsing the serialization of `D` yields a
document Python-`==` to `D`; `sort_keys=True` reorders keys, which dict
equality ignores): if no rule's search pattern matches anywhere in the
serialized form of `D`, then reading back the text written for `D` (with
the base controller's empty excluded-attribute list) returns a document
Python-`==` to `D` — the write-side substitutions change nothing, the
read-side substitution pass (the same engine, run in the same direction)
is likewise the identity on the stored text, and parsing recovers `D`. -/
theorem write_read_roundtrip (dumps : List (String × Json) → String)
    (loads : String → Option (List (String × Json)))
    (subs : List (String × SubRule)) (D : List (String × Json))
    (hcodec : ∃ E, loads (dumps D) = some E ∧ jsonEq (Json.obj E) (Json.obj D) = true)
    (hnomatch : ∀ r ∈ subs, r.2.hasMatch (dumps D) = false) :
    ∃ E, read_file loads subs (write_file dumps subs [] D) = some E ∧
      jsonEq (Json.obj E) (Json.obj D) = true := by
  rw [write_file, without_keys_nil,
    run_substitutions_of_no_match subs (dumps D) hnomatch, read_file,
    run_substitutions_of_no_match subs (dumps D) hnomatch]
  exact hcodec

/-! A concrete serializer/parser pair standing in for `json.dumps(·,
sort_keys=True)` / `json.loads`, used to instantiate the round-trip law:
compact JSON text with name-sorted object keys, string escapes for the
quote and backslash characters, and a fuel-bounded recursive-descent
parser. (Fuel only bounds nesting depth; the witness below evaluates the
pair on a concrete document.) -/

def quoteChar : Char := Char.ofNat 34

def backslashChar : Char := Char.ofNat 92

def lbraceChar : Char := Char.ofNat 123

def rbraceChar : Char := Char.ofNat 125

def escapeChars : List Char → List Char
  | [] => []
  | c :: cs =>
    if c = quoteChar ∨ c = backslashChar then backslashChar :: c :: escapeChars cs
    else c :: escapeChars cs

def quoteStr (s : String) : String :=
  String.mk (quoteChar :: (escapeChars s.data ++ [quoteChar]))

def joinComma : List String → String
  | [] => ""
  | [s] => s
  | s :: rest => s ++ "," ++ joinComma rest

def serializeJson : Nat → Json → String
  | 0, _ => ""
  | fuel + 1, j =>
    match j with
    | Json.null => "null"
    | Json.bool b => cond b "true" "false"
    | Json.num n => toString n
    | Json.str s => quoteStr s
    | Json.arr xs => "[" ++ joinComma (xs.map (serializeJson fuel)) ++ "]"
    | Json.obj fs =>
      String.mk [lbraceChar]
        ++ joinComma ((sortByKey fs).map
            (fun kv => quoteStr kv.1 ++ ":" ++ serializeJson fuel kv.2))
        ++ String.mk [rbraceChar]

def dumpsModel (d : List (String × Json)) : String :=
  serializeJson 1000 (Json.obj d)

def parseStrAux : List Char → String → Option (String × List Char)
  | [], _ => none
  | c :: cs, acc =>
    if c = backslashChar then
      match cs with
      | c2 :: cs2 => parseStrAux cs2 (acc.push c2)
      | [] => none
    else if c = quoteChar then some (acc, cs)
    else parseStrAux cs (acc.push c)

def parseNatAux : List Char → Nat → Nat × List Char
  | [], acc => (acc, [])
  | c :: cs, acc =>
    if c.isDigit then parseNatAux cs (acc * 10 + (c.toNat - 48)) else (acc, c :: cs)

mutual

def parseJson : Nat → List Char → Option (Json × List Char)
  | 0, _ => none
  | _ + 1, [] => none
  | fuel + 1, c :: cs =>
    if c = quoteChar then
      (parseStrAux cs "").map fun sr => (Json.str sr.1, sr.2)
    else if c = lbraceChar then
      match cs with
      | c2 :: cs2 =>
        if c2 = rbraceChar then some (Json.obj [], cs2)
        else (parseMembers fuel (c2 :: cs2)).map fun fr => (Json.obj fr.1, fr.2)
      | [] => none
    else if c = '[' then
      match cs with
      | ']' :: cs2 => some (Json.arr [], cs2)
      | _ => (parseItems fuel cs).map fun xr => (Json.arr xr.1, xr.2)
    else if c = '-' then
      match cs with
      | c2 :: cs2 =>
        if c2.isDigit then
          let nr := parseNatAux (c2 :: cs2) 0
          some (Json.num (-(nr.1 : Int)), nr.2)
        else none
      | [] => none
    else if c.isDigit then
      let nr := parseNatAux (c :: cs) 0
      some (Json.num (nr.1 : Int), nr.2)
    else
      match c :: cs with
      | 'n' :: 'u' :: 'l' :: 'l' :: rest => some (Json.null, rest)
      | 't' :: 'r' :: 'u' :: 'e' :: rest => some (Json.bool true, rest)
      | 'f' :: 'a' :: 'l' :: 's' :: 'e' :: rest => some (Json.bool false, rest)
      | _ => none

def parseItems : Nat → List Char → Option (List Json × List Char)
  | 0, _ => none
  | fuel + 1, cs =>
    match parseJson fuel cs with
    | none => none
    | some (j, rest) =>
      match rest with
      | ',' :: more => (parseItems fuel more).map fun xr => (j :: xr.1, xr.2)
      | ']' :: more => some ([j], more)
      | _ => none

def parseMembers : Nat → List Char → Option (List (String × Json) × List Char)
  | 0, _ => none
  | fuel + 1, cs =>
    match cs with
    | c :: rest =>
      if c = quoteChar then
        match parseStrAux rest "" with
        | none => none
        | some (key, r1) =>
          match r1 with
          | ':' :: r2 =>
            match parseJson fuel r2 with
            | none => none
            | some (v, r3) =>
              match r3 with
              | ',' :: more =>
                (parseMembers fuel more).map fun fr => ((key, v) :: fr.1, fr.2)
              | c3 :: more =>
                if c3 = rbraceChar then some ([(key, v)], more) else none
              | [] => none
          | _ => none
      else none
    | [] => none

end

def loadsModel (s : String) : Option (List (String × Json)) :=
  match parseJson 1000 s.data with
  | some (Json.obj fs, []) => some fs
  | _ => none

set_option maxRecDepth 1000000 in
/-- Witness for the round-trip theorem: a concrete nested document (with
keys out of sorted order), the concrete codec, and a rule whose pattern
matches nothing in its serialized form. -/
theorem write_read_roundtrip_witness :
    ∃ E, read_file loadsModel
      [("r", ⟨fun _ => false, fun s => s, fun _ _ => rfl⟩)]
      (write_file dumpsModel
        [("r", ⟨fun _ => false, fun s => s, fun _ _ => rfl⟩)] []
        [("id", Json.str "x"), ("a", Json.obj [("b", Json.num 1)]),
         ("c", Json.arr [Json.bool true, Json.null, Json.num (-2)])])
      = some E ∧
      jsonEq (Json.obj E)
        (Json.obj [("id", Json.str "x"), ("a", Json.obj [("b", Json.num 1)]),
          ("c", Json.arr [Json.bool true, Json.null, Json.num (-2)])]) = true :=
  write_read_roundtrip dumpsModel loadsModel _ _
    ⟨[("a", Json.obj [("b", Json.num 1)]),
      ("c", Json.arr [Json.bool true, Json.null, Json.num (-2)]),
      ("id", Json.str "x")],
     by rfl,
     by simp [jsonEq, jsonObjSub, jsonFindEq, jsonEqList]⟩
    (fun r hr => by
      rcases List.mem_singleton.mp hr with rfl
      rfl)

/-! ## Depaginator (`ElasticsearchAPIController._depaginate`)

The offset-style depaginator keeps a running `offset` starting at 0 and,
while `offset < results["count"]` (the first iteration always runs, because
`count` starts at `float("inf")`), calls `method(offset=offset,
size=page_size)`, yields every record of `results[key]` — incrementing
`offset` once per record — and re-reads `count` from the response. The
listing function is passed in; a page is its response, restricted to the
`count` field and the `key` list the loop reads. The embedding returns the
list of offsets passed to the calls alongside the yielded records, with
fuel bounding the number of calls (the Python generator can loop forever on
a non-monotonic listing function). -/

structure PageResult (ρ : Type) where
  count : Nat
  records : List ρ

def depaginate {ρ : Type} (fuel : Nat) (method : Nat → Nat → PageResult ρ)
    (page_size : Nat) (offset : Nat) : List Nat × List ρ :=
  match fuel with
  | 0 => ([], [])
  | fuel + 1 =>
    let results := method offset page_size
    let offset' := offset + results.records.length
    if offset' < results.count then
      let rest := depaginate fuel method page_size offset'
      (offset :: rest.1, results.records ++ rest.2)
    else ([offset], results.records)

/-- A mock listing function reporting `count = 23` total records, serving
them in pages of at most the requested size: records are numbered by their
global position. -/
def mock23 : Nat → Nat → PageResult Nat :=
  fun offset size => ⟨23, List.range' offset (min size (23 - offset))⟩

/-- C3: the offset-style depaginator starts at offset 0, repeatedly calls
the listing function with `(offset, size)`, yields every record of each
returned page (first conjunct: the yielded sequence is exactly the
concatenation of the pages of the calls made), and stops once the running
offset reaches the `count` of the last response: on a mock listing function
reporting `count = 23` with `page_size = 10` it makes exactly the 3 calls
at offsets 0, 10 and 20 and yields exactly the 23 records. -/
theorem depaginate_offset_style :
    (∀ (ρ : Type) (fuel page_size offset : Nat) (method : Nat → Nat → PageResult ρ),
      (depaginate fuel method page_size offset).2
        = ((depaginate fuel method page_size offset).1.map
            (fun o => (method o page_size).records)).flatten) ∧
    (depaginate 100 mock23 10 0).1 = [0, 10, 20] ∧
    (depaginate 100 mock23 10 0).2 = List.range 23 ∧
    (depaginate 100 mock23 10 0).2.length = 23 := by
  refine ⟨fun ρ fuel page_size offset method => ?_, by decide, by decide, by decide⟩
  induction fuel generalizing offset with
  | zero => rfl
  | succ fuel ih =>
    rw [depaginate]
    split
    · simp [List.map, List.flatten, ih]
    · simp [List.map, List.flatten]

/-! ## Transform load (`TransformController.load`)

`load` resolves the working directory with `create=False`
(`_get_working_dir` raises `NotADirectoryError` when the resolved
directory does not exist), fetches the full remote transform set through
the depaginator into an id-keyed dict, and then, for each local `*.json`
file (the `_state.json` sidecar excluded): if the id exists remotely, it
compares the loaded document field by field against the remote one —
`existing_transform[key]` raising `KeyError` on a key absent remotely —
and on the first differing field stops, deletes and recreates the
transform; if the id is new it creates it. `HTTPStatusError` from the
server calls is swallowed per record when `allow_failure` is set
(anything else propagates), and after a record imports without an
exception its file is unlinked when `delete_after_import` is set.

The HTTP client is modelled by a per-call failure oracle (`CallEnv`); the
directory and its files are explicit; the trace records the calls issued
in order. -/

inductive TCall where
  | fetch : TCall
  | stop (id : String) : TCall
  | delete (id : String) : TCall
  | create (id : String) : TCall
deriving DecidableEq

/-- Which server calls raise `HTTPStatusError`, per transform id. -/
structure CallEnv where
  stopFails : String → Bool
  deleteFails : String → Bool
  createFails : String → Bool

def noFailEnv : CallEnv := ⟨fun _ => false, fun _ => false, fun _ => false⟩

inductive RecResult where
  | success : RecResult
  | httpFail : RecResult
  | keyFail : RecResult
deriving DecidableEq

inductive LoadErr where
  | notADirectory : LoadErr
  | httpError : LoadErr
  | keyError : LoadErr
deriving DecidableEq

/-- A transform document: the decoded JSON object of one local file. -/
abbrev TDoc := List (String × Json)

/-- A local transform file: `(file stem = transform id, decoded document)`. -/
abbrev TFile := String × TDoc

/-- Python dict lookup `m[key]` (`none` = `KeyError`). -/
def lookupAssoc {α : Type} : List (String × α) → String → Option α
  | [], _ => none
  | (k, v) :: rest, key => if key == k then some v else lookupAssoc rest key

/-- Python dict insert `m[k] = v`: overwrite in place, else append. -/
def dictInsert {α : Type} (m : List (String × α)) (k : String) (v : α) :
    List (String × α) :=
  if (lookupAssoc m k).isSome then
    m.map (fun kv => if kv.1 == k then (k, v) else kv)
  else m ++ [(k, v)]

/-- Python dict comprehension over the depaginated remote set, keyed by
each transform record id (later duplicates overwrite). -/
def buildMap {α : Type} (remote : List (String × α)) : List (String × α) :=
  remote.foldl (fun m kv => dictInsert m kv.1 kv.2) []

/-- The stop → delete → create sequence run when a field differs, cut
short at the first call that raises. -/
def recreateSeq (env : CallEnv) (id : String) : List TCall × RecResult :=
  if env.stopFails id then ([TCall.stop id], RecResult.httpFail)
  else if env.deleteFails id then ([TCall.stop id, TCall.delete id], RecResult.httpFail)
  else if env.createFails id then
    ([TCall.stop id, TCall.delete id, TCall.create id], RecResult.httpFail)
  else ([TCall.stop id, TCall.delete id, TCall.create id], RecResult.success)

/-- The per-field comparison loop: for each key of the loaded document in
order, look the key up in the existing remote transform (`KeyError` when
absent — before any comparison), and on the first Python-`!=` value run
the stop/delete/create sequence and `break`. -/
def compareFields (env : CallEnv) (id : String) :
    TDoc → TDoc → List TCall × RecResult
  | [], _ => ([], RecResult.success)
  | (key, v) :: rest, existing =>
    match lookupAssoc existing key with
    | none => ([], RecResult.keyFail)
    | some w =>
      if jsonEq v w then compareFields env id rest existing
      else recreateSeq env id

/-- Process one local transform file against the remote map. -/
def loadOne (env : CallEnv) (map : List (String × TDoc)) (file : TFile) :
    List TCall × RecResult :=
  match lookupAssoc map file.1 with
  | some existing => compareFields env file.1 file.2 existing
  | none =>
    if env.createFails file.1 then ([TCall.create file.1], RecResult.httpFail)
    else ([TCall.create file.1], RecResult.success)

structure LoadOut where
  trace : List TCall
  outcome : Except LoadErr Unit
  remaining : List TFile
  successes : List TFile

/-- The per-file loop: `HTTPStatusError` is logged and skipped when
`allow_failure` is set and aborts the load otherwise; a `KeyError` from
the comparison is not caught and aborts the load unconditionally; a file
that imported without an exception is unlinked when `delete_after_import`
is set. `remaining` is what is still on disk afterwards, `successes` the
files that imported cleanly. -/
def loadFiles (env : CallEnv) (map : List (String × TDoc))
    (allow_failure delete_after_import : Bool) : List TFile → LoadOut
  | [] => ⟨[], Except.ok (), [], []⟩
  | f :: rest =>
    match loadOne env map f with
    | (tr, RecResult.success) =>
      let out := loadFiles env map allow_failure delete_after_import rest
      ⟨tr ++ out.trace, out.outcome,
        if delete_after_import then out.remaining else f :: out.remaining,
        f :: out.successes⟩
    | (tr, RecResult.httpFail) =>
      if allow_failure then
        let out := loadFiles env map allow_failure delete_after_import rest
        ⟨tr ++ out.trace, out.outcome, f :: out.remaining, out.successes⟩
      else ⟨tr, Except.error LoadErr.httpError, f :: rest, []⟩
    | (tr, RecResult.keyFail) => ⟨tr, Except.error LoadErr.keyError, f :: rest, []⟩

/-- Python `TransformController.load`: directory resolution (raising
`NotADirectoryError` when the collection directory does not exist), the
depaginated fetch of the remote set, then the per-file loop. -/
def transformLoad (dirExists : Bool) (env : CallEnv) (remote : List (String × TDoc))
    (allow_failure delete_after_import : Bool) (files : List TFile) : LoadOut :=
  if dirExists then
    let out := loadFiles env (buildMap remote) allow_failure delete_after_import files
    ⟨TCall.fetch :: out.trace, out.outcome, out.remaining, out.successes⟩
  else ⟨[], Except.error LoadErr.notADirectory, files, []⟩

/-- The mutating server calls of a trace (everything but the read-only
depaginated fetch). -/
def mutatingCalls (trace : List TCall) : List TCall :=
  trace.filter fun c =>
    match c with
    | TCall.fetch => false
    | _ => true

/-- If every field before position `i` of the loaded document matches the
existing transform and field `i` exists remotely but differs, the
comparison loop runs the stop/delete/create sequence, whatever comes after
position `i` (the short-circuit `break`). -/
theorem compareFields_shortcircuit (env : CallEnv) (id k : String) (v w : Json)
    (rest existing : TDoc) :
    ∀ pre : TDoc,
      (∀ p ∈ pre, ∃ u, lookupAssoc existing p.1 = some u ∧ jsonEq p.2 u = true) →
      lookupAssoc existing k = some w →
      jsonEq v w = false →
      compareFields env id (pre ++ (k, v) :: rest) existing = recreateSeq env id := by
  intro pre
  induction pre with
  | nil =>
    intro _ hk hne
    simp [compareFields, hk, hne]
  | cons p pre ih =>
    intro hpre hk hne
    obtain ⟨u, hu, hequ⟩ := hpre p (by simp)
    rw [show p = (p.1, p.2) from rfl, List.cons_append, compareFields, hu]
    simp only [hequ, if_true]
    exact ih (fun q hq => hpre q (by simp [hq])) hk hne

/-- C1: for the transform (immutable) resource kind, load compares the
local record against the remote record of the same id per top-level field
and short-circuits on the first differing field. On local `{id: "x",
field: 1}` versus remote `{id: "x", field: 2}` it issues exactly the calls
stop "x", delete "x", create "x", in that order; on identical local and
remote records it issues zero mutating calls; and in general, whenever
every field before some position matches and the field at that position
differs, the comparison ends in the stop/delete/recreate sequence without
looking at any later field. -/
theorem transform_load_reconciliation :
    mutatingCalls (transformLoad true noFailEnv
        [("x", [("id", Json.str "x"), ("field", Json.num 2)])] false false
        [("x", [("id", Json.str "x"), ("field", Json.num 1)])]).trace
      = [TCall.stop "x", TCall.delete "x", TCall.create "x"] ∧
    mutatingCalls (transformLoad true noFailEnv
        [("x", [("id", Json.str "x"), ("field", Json.num 2)])] false false
        [("x", [("id", Json.str "x"), ("field", Json.num 2)])]).trace = [] ∧
    (∀ (env : CallEnv) (id k : String) (v w : Json) (pre rest existing : TDoc),
      (∀ p ∈ pre, ∃ u, lookupAssoc existing p.1 = some u ∧ jsonEq p.2 u = true) →
      lookupAssoc existing k = some w →
      jsonEq v w = false →
      compareFields env id (pre ++ (k, v) :: rest) existing = recreateSeq env id) := by
  refine ⟨?_, ?_, fun env id k v w pre rest existing hpre hk hne =>
    compareFields_shortcircuit env id k v w rest existing pre hpre hk hne⟩ <;>
    simp [transformLoad, loadFiles, loadOne, compareFields, recreateSeq, buildMap,
      dictInsert, lookupAssoc, noFailEnv, jsonEq, mutatingCalls]

/-- Witness: the short-circuit conjunct applied to a concrete document
whose first field matches, second differs, and third would be compared
only if the loop failed to break. -/
theorem transform_load_reconciliation_witness :
    compareFields noFailEnv "x"
      [("id", Json.str "x"), ("field", Json.num 1), ("zzz", Json.num 9)]
      [("id", Json.str "x"), ("field", Json.num 2)]
      = recreateSeq noFailEnv "x" :=
  transform_load_reconciliation.2.2 noFailEnv "x" "field" (Json.num 1) (Json.num 2)
    [("id", Json.str "x")] [("zzz", Json.num 9)]
    [("id", Json.str "x"), ("field", Json.num 2)]
    (fun p hp => by
      rcases List.mem_singleton.mp hp with rfl
      exact ⟨Json.str "x", by simp [lookupAssoc], by simp [jsonEq]⟩)
    (by simp [lookupAssoc]) (by simp [jsonEq])

/-- C7 (counterexample to the claim as stated): loading the transform
collection when its directory does not exist is not a silent no-op — the
load raises (`_get_working_dir(create=False)` raises `NotADirectoryError`
for a missing directory, and `TransformController.load` calls it before
anything else). -/
theorem transform_load_missing_dir_counterexample :
    (transformLoad false noFailEnv [] false false [("x", [])]).outcome
      = Except.error LoadErr.notADirectory ∧
    (transformLoad false noFailEnv [] false false [("x", [])]).outcome
      ≠ Except.ok () := by
  refine ⟨rfl, ?_⟩
  intro h
  simp [transformLoad] at h

/-- C7 (amended): for every load of the transform collection whose
directory does not exist, the load performs no remote calls and raises
`NotADirectoryError` — it is an error, not a silent no-op, and nothing on
disk changes. -/
theorem transform_load_missing_dir (env : CallEnv) (remote : List (String × TDoc))
    (af di : Bool) (files : List TFile) :
    (transformLoad false env remote af di files).trace = [] ∧
    (transformLoad false env remote af di files).outcome
      = Except.error LoadErr.notADirectory ∧
    (transformLoad false env remote af di files).remaining = files :=
  ⟨rfl, rfl, rfl⟩

/-- If every field of the loaded document before position `i` matches the
existing transform and the key at position `i` is absent remotely, the
comparison raises `KeyError` (no call is issued). -/
theorem compareFields_keyfail (env : CallEnv) (id k : String) (v : Json)
    (rest existing : TDoc) :
    ∀ pre : TDoc,
      (∀ p ∈ pre, ∃ u, lookupAssoc existing p.1 = some u ∧ jsonEq p.2 u = true) →
      lookupAssoc existing k = none →
      compareFields env id (pre ++ (k, v) :: rest) existing
        = ([], RecResult.keyFail) := by
  intro pre
  induction pre with
  | nil =>
    intro _ hk
    simp [compareFields, hk]
  | cons p pre ih =>
    intro hpre hk
    obtain ⟨u, hu, hequ⟩ := hpre p (by simp)
    rw [show p = (p.1, p.2) from rfl, List.cons_append, compareFields, hu]
    simp only [hequ, if_true]
    exact ih (fun q hq => hpre q (by simp [hq])) hk

/-- C10: during transform load with `allow_failure=true`, only
`HTTPStatusError` from server calls is swallowed (first conjunct: a record
whose server call fails with an HTTP status error is logged and skipped,
and the loop continues with the next record); a local transform whose
document reaches a top-level key absent from the existing remote transform
of the same id raises `KeyError` in the field comparison, which the
`allow_failure` branch does not catch, so the whole load aborts — no call
is issued for that record, nothing is deleted, and no later record is
attempted. -/
theorem transform_load_keyerror_not_caught :
    (∀ (env : CallEnv) (map : List (String × TDoc)) (di : Bool) (f : TFile)
        (others : List TFile) (tr : List TCall),
      loadOne env map f = (tr, RecResult.httpFail) →
      loadFiles env map true di (f :: others)
        = ⟨tr ++ (loadFiles env map true di others).trace,
           (loadFiles env map true di others).outcome,
           f :: (loadFiles env map true di others).remaining,
           (loadFiles env map true di others).successes⟩) ∧
    (∀ (env : CallEnv) (map : List (String × TDoc)) (af di : Bool)
        (id k : String) (v : Json) (pre rest existing : TDoc)
        (others : List TFile),
      lookupAssoc map id = some existing →
      (∀ p ∈ pre, ∃ u, lookupAssoc existing p.1 = some u ∧ jsonEq p.2 u = true) →
      lookupAssoc existing k = none →
      loadFiles env map af di ((id, pre ++ (k, v) :: rest) :: others)
        = ⟨[], Except.error LoadErr.keyError,
            (id, pre ++ (k, v) :: rest) :: others, []⟩) := by
  constructor
  · intro env map di f others tr h
    rw [loadFiles, h]
    rfl
  · intro env map af di id k v pre rest existing others hmap hpre hk
    have hone : loadOne env map (id, pre ++ (k, v) :: rest) = ([], RecResult.keyFail) := by
      rw [loadOne]
      simp only [hmap]
      exact compareFields_keyfail env id k v rest existing pre hpre hk
    rw [loadFiles, hone]

/-- Witness: a record whose create call fails with an HTTP error is
skipped and the load continues; a record with the extra top-level key
`"zz"` absent from the remote transform aborts the whole load with
`KeyError`, leaving the following record unattempted. -/
theorem transform_load_keyerror_not_caught_witness :
    loadFiles ⟨fun _ => false, fun _ => false, fun i => i == "y"⟩ [] true false
        [("y", []), ("z", [])]
      = ⟨[TCall.create "y", TCall.create "z"], Except.ok (),
         [("y", []), ("z", [])], [("z", [])]⟩ ∧
    loadFiles noFailEnv [("x", [("a", Json.num 1)])] true true
        [("x", [("a", Json.num 1), ("zz", Json.num 2)]), ("w", [])]
      = ⟨[], Except.error LoadErr.keyError,
          [("x", [("a", Json.num 1), ("zz", Json.num 2)]), ("w", [])], []⟩ := by
  constructor
  · rw [transform_load_keyerror_not_caught.1 _ _ _ ("y", []) [("z", [])]
      [TCall.create "y"] (by rfl)]
    rfl
  · exact transform_load_keyerror_not_caught.2 noFailEnv [("x", [("a", Json.num 1)])]
      true true "x" "zz" (Json.num 2) [("a", Json.num 1)] [] [("a", Json.num 1)]
      [("w", [])] (by simp [lookupAssoc])
      (fun p hp => by
        rcases List.mem_singleton.mp hp with rfl
        exact ⟨Json.num 1, by simp [lookupAssoc], by simp [jsonEq]⟩)
      (by simp [lookupAssoc])

/-! ## Transform dump (`TransformController.dump`)

`dump` resolves (creating) the working directory, writes one file per
non-managed remote transform (`<id>.json`, via `_write_file`, which also
records the path in the touched set), then — if requested — purges the
untouched files, and only after that depaginates the transform stats and
writes the `_state.json` sidecar snapshot. The filesystem is modelled as
the list of paths present on disk; events record the writes and the purge
step, with the purge event carrying the untouched candidates it computes. -/

/-- One remote transform as the dump loop sees it: its id and the
truthiness of `transform.get("_meta", {}).get("managed")`. -/
structure RTransform where
  id : String
  managed : Bool

inductive DumpEvent where
  | write (path : String) : DumpEvent
  | purge (candidates : List String) : DumpEvent
deriving DecidableEq

structure DumpState where
  disk : List String
  touched : List String
  events : List DumpEvent

/-- Python `_write_file`: the path is now present on disk and in the touched set. -/
def writeStep (st : DumpState) (path : String) : DumpState :=
  ⟨if st.disk.contains path then st.disk else st.disk ++ [path],
   if st.touched.contains path then st.touched else st.touched ++ [path],
   st.events ++ [DumpEvent.write path]⟩

/-- The per-record dump loop: write `<id>.json` for every transform that
is not managed (or for all of them under `include_managed`). -/
def dumpRecordsLoop (include_managed : Bool) :
    List RTransform → DumpState → DumpState
  | [], st => st
  | t :: rest, st =>
    if include_managed || !t.managed then
      dumpRecordsLoop include_managed rest (writeStep st (t.id ++ ".json"))
    else dumpRecordsLoop include_managed rest st

/-- Python `_untouched_files`: every file on disk under the working directory that
is not in the touched set. -/
def untouchedOf (st : DumpState) : List String :=
  st.disk.filter fun p => !st.touched.contains p

/-- The paths the record phase writes, in order. -/
def recordPaths (include_managed : Bool) : List RTransform → List String
  | [] => []
  | t :: rest =>
    if include_managed || !t.managed then
      (t.id ++ ".json") :: recordPaths include_managed rest
    else recordPaths include_managed rest

def stateFileName : String := "_state.json"

/-- Python `TransformController.dump`: record writes, then (when requested) the
purge of untouched files — deleting them when forced or confirmed — and
then the `_state.json` sidecar write. -/
def transformDump (remote : List RTransform) (include_managed : Bool)
    (existing : List String) (purge force confirmed : Bool) : DumpState :=
  let st1 := dumpRecordsLoop include_managed remote ⟨existing, [], []⟩
  let st2 :=
    if purge || force then
      let untouched := untouchedOf st1
      ⟨if force || confirmed then st1.disk.filter (fun p => !untouched.contains p)
        else st1.disk,
       st1.touched, st1.events ++ [DumpEvent.purge untouched]⟩
    else st1
  writeStep st2 stateFileName

/-- The claim's ordering property: no write event anywhere after a purge
event. -/
def noWriteAfterPurge : List DumpEvent → Bool
  | [] => true
  | DumpEvent.write _ :: rest => noWriteAfterPurge rest
  | DumpEvent.purge _ :: rest =>
    rest.all fun e =>
      match e with
      | DumpEvent.write _ => false
      | DumpEvent.purge _ => true

theorem dumpRecordsLoop_events (im : Bool) :
    ∀ (remote : List RTransform) (st : DumpState),
      (dumpRecordsLoop im remote st).events
        = st.events ++ (recordPaths im remote).map DumpEvent.write := by
  intro remote
  induction remote with
  | nil => intro st; simp [dumpRecordsLoop, recordPaths]
  | cons t rest ih =>
    intro st
    rw [dumpRecordsLoop, recordPaths]
    by_cases h : (im || !t.managed) = true
    · rw [if_pos h, if_pos h, ih]
      simp [writeStep]
    · rw [if_neg h, if_neg h, ih]

theorem dumpRecordsLoop_disk_mono (im : Bool) {x : String} :
    ∀ (remote : List RTransform) (st : DumpState),
      x ∈ st.disk → x ∈ (dumpRecordsLoop im remote st).disk := by
  intro remote
  induction remote with
  | nil => intro st h; simpa [dumpRecordsLoop] using h
  | cons t rest ih =>
    intro st h
    rw [dumpRecordsLoop]
    split
    · refine ih _ ?_
      simp only [writeStep]
      split
      · exact h
      · exact List.mem_append_left _ h
    · exact ih _ h

theorem dumpRecordsLoop_touched (im : Bool) {x : String} :
    ∀ (remote : List RTransform) (st : DumpState),
      x ∈ (dumpRecordsLoop im remote st).touched →
      x ∈ st.touched ∨ x ∈ recordPaths im remote := by
  intro remote
  induction remote with
  | nil => intro st h; simpa [dumpRecordsLoop, recordPaths] using h
  | cons t rest ih =>
    intro st h
    rw [dumpRecordsLoop] at h
    rw [recordPaths]
    by_cases hm : (im || !t.managed) = true
    · rw [if_pos hm] at h
      rw [if_pos hm]
      rcases ih _ h with h' | h'
      · simp only [writeStep] at h'
        split at h'
        · exact Or.inl h'
        · rcases List.mem_append.mp h' with h'' | h''
          · exact Or.inl h''
          · exact Or.inr (List.mem_cons.mpr (Or.inl (by simpa using h'')))
      · exact Or.inr (List.mem_cons_of_mem _ h')
    · rw [if_neg hm] at h
      rw [if_neg hm]
      exact ih _ h

/-- C6 (counterexample to the claim as stated): in a transform dump pass
with purge requested, a file write does happen after the purge step — the
`_state.json` sidecar snapshot is written last, after
`_purge_untouched_files` has run — and a pre-existing `_state.json` shows
up in the purge candidates because it is not yet in the touched set when
the untouched complement is computed. -/
theorem transform_dump_purge_order_counterexample :
    noWriteAfterPurge
      (transformDump [⟨"t1", false⟩] false ["t1.json", "_state.json"]
        true false false).events = false ∧
    (transformDump [⟨"t1", false⟩] false ["t1.json", "_state.json"]
        true false false).events
      = [DumpEvent.write "t1.json", DumpEvent.purge ["_state.json"],
         DumpEvent.write "_state.json"] := by
  constructor <;> rfl

/-- C6 (amended): within one transform dump pass with purge requested, the
purge runs after every per-record write — but before the `_state.json`
sidecar write, which is the one write of the pass issued after the purge
step; consequently the untouched complement at purge time contains every
pre-existing file not rewritten by a record write, including a
pre-existing `_state.json` sidecar (which is purged as untouched and then
rewritten). -/
theorem transform_dump_purge_ordering (remote : List RTransform)
    (im force confirmed : Bool) (existing : List String) :
    ∃ candidates,
      (transformDump remote im existing true force confirmed).events
        = (recordPaths im remote).map DumpEvent.write
          ++ [DumpEvent.purge candidates, DumpEvent.write stateFileName] ∧
      (stateFileName ∈ existing → stateFileName ∉ recordPaths im remote →
        stateFileName ∈ candidates) := by
  refine ⟨untouchedOf (dumpRecordsLoop im remote ⟨existing, [], []⟩), ?_, ?_⟩
  · show (writeStep _ stateFileName).events = _
    rw [writeStep]
    simp only [transformDump, if_pos (by simp : (true || force) = true)]
    rw [dumpRecordsLoop_events]
    simp
  · intro hex hrp
    have hdisk : stateFileName ∈ (dumpRecordsLoop im remote ⟨existing, [], []⟩).disk :=
      dumpRecordsLoop_disk_mono im remote ⟨existing, [], []⟩ hex
    have htouch : stateFileName ∉ (dumpRecordsLoop im remote ⟨existing, [], []⟩).touched := by
      intro h
      rcases dumpRecordsLoop_touched im remote ⟨existing, [], []⟩ h with h' | h'
      · simp at h'
      · exact hrp h'
    rw [untouchedOf]
    refine List.mem_filter.mpr ⟨hdisk, ?_⟩
    simpa using htouch

/-- Witness: with one remote transform and a pre-existing `_state.json`,
the dump trace is record write, purge (listing `_state.json`), sidecar
write. -/
theorem transform_dump_purge_ordering_witness :
    ∃ candidates,
      (transformDump [⟨"t1", false⟩] false ["_state.json"] true false false).events
        = [DumpEvent.write "t1.json", DumpEvent.purge candidates,
           DumpEvent.write "_state.json"] ∧
      "_state.json" ∈ candidates := by
  obtain ⟨c, hev, himp⟩ :=
    transform_dump_purge_ordering [⟨"t1", false⟩] false false false ["_state.json"]
  refine ⟨c, by simpa [recordPaths, stateFileName] using hev,
    himp (by simp [stateFileName]) (by decide)⟩

/-! ## Purge confirmation (`GenericController._purge_untouched_files`)

`_purge_untouched_files(force)` computes the untouched set; if it is
empty it returns immediately — without printing the prompt or calling
`input` — and otherwise evaluates `force or input(prompt) in {"Y", "y",
"yes", "Yes", "YES"}`: the Python `or` short-circuits, so the interactive
prompt is shown only when `force` is false; on a confirmed answer (or
`force`) every untouched file is unlinked, and on any other answer —
including the empty string, which is not in the affirmative set — the
purge is cancelled and nothing is deleted. The prompt answer is passed in
explicitly; `PurgeOut` records whether the user was prompted and which
files were deleted. -/

def purgeAffirmatives : List String := ["Y", "y", "yes", "Yes", "YES"]

structure PurgeOut where
  prompted : Bool
  deleted : List String
deriving DecidableEq

def purge_untouched_files (disk touched : List String) (force : Bool)
    (answer : String) : PurgeOut :=
  let untouched := disk.filter fun p => !touched.contains p
  if untouched.isEmpty then ⟨false, []⟩
  else if force then ⟨false, untouched⟩
  else if purgeAffirmatives.contains answer then ⟨true, untouched⟩
  else ⟨true, []⟩

/-- C8: purge of untouched files. If the untouched set is empty, purge is
a no-op with no prompt; otherwise, with `force` the untouched files are
deleted without prompting, and without `force` an interactive confirmation
is shown whose empty-input default is "no" (the empty string is not in the
affirmative set) — on any non-affirmative answer nothing is deleted. -/
theorem purge_untouched_files_spec (disk touched : List String) (force : Bool)
    (answer : String) :
    (disk.filter (fun p => !touched.contains p) = [] →
      purge_untouched_files disk touched force answer = ⟨false, []⟩) ∧
    (disk.filter (fun p => !touched.contains p) ≠ [] → force = true →
      purge_untouched_files disk touched force answer
        = ⟨false, disk.filter (fun p => !touched.contains p)⟩) ∧
    (disk.filter (fun p => !touched.contains p) ≠ [] → force = false →
      (purge_untouched_files disk touched force answer).prompted = true ∧
      (purgeAffirmatives.contains answer = false →
        (purge_untouched_files disk touched force answer).deleted = []) ∧
      purgeAffirmatives.contains "" = false) := by
  have hne : ∀ (l : List String), l ≠ [] → l.isEmpty ≠ true := by
    intro l hl
    simpa [List.isEmpty_iff] using hl
  refine ⟨fun h => by
      simp only [purge_untouched_files]
      rw [if_pos (List.isEmpty_iff.mpr h)],
    fun h hf => ?_, fun h hf => ?_⟩
  · simp only [purge_untouched_files]
    rw [if_neg (hne _ h), hf, if_pos rfl]
  · simp only [purge_untouched_files]
    rw [if_neg (hne _ h), hf]
    simp only [Bool.false_eq_true, if_false]
    refine ⟨?_, fun hans => ?_, by decide⟩
    · cases hc : purgeAffirmatives.contains answer <;> simp [hc]
    · rw [hans]
      simp

/-- Witness: an empty untouched set is a silent no-op; with `force` the
candidate is deleted without prompting; without `force` and the empty
answer the user is prompted and nothing is deleted. -/
theorem purge_untouched_files_spec_witness :
    purge_untouched_files ["a.json"] ["a.json"] false "" = ⟨false, []⟩ ∧
    purge_untouched_files ["a.json", "b.json"] ["a.json"] true ""
      = ⟨false, ["b.json"]⟩ ∧
    (purge_untouched_files ["a.json", "b.json"] ["a.json"] false "").prompted = true ∧
    (purge_untouched_files ["a.json", "b.json"] ["a.json"] false "").deleted = [] := by
  refine ⟨(purge_untouched_files_spec _ _ _ _).1 (by decide),
    ?_, ?_, ?_⟩
  · have h := (purge_untouched_files_spec ["a.json", "b.json"] ["a.json"] true "").2.1
      (by decide) rfl
    rw [h]
    decide
  · exact ((purge_untouched_files_spec ["a.json", "b.json"] ["a.json"] false "").2.2
      (by decide) rfl).1
  · exact ((purge_untouched_files_spec ["a.json", "b.json"] ["a.json"] false "").2.2
      (by decide) rfl).2.1 (by decide)


/-! ## System-level driver (`Stacker.system_load`)

`system_load` first expands `stubborn`: it forces `delete_after_import`,
`temp` and `allow_failure` to true and, only when the given `retries` is
falsy (the default `0`), replaces it with 5. It then runs
`for _ in range(retries + 1)`, each pass invoking every requested type's
`load` in order with the same arguments. The loop has no `try`/`except`:
an exception a load does not swallow — the comparison `KeyError`, or an
`HTTPStatusError` when `allow_failure` is false — propagates out of
`controller.load` and halts the whole run, ending the current pass at the
failing type and performing no further pass. With `delete_after_import`
each type's successfully imported files vanish from disk, so later passes
glob fewer files. Each type is modelled by its own file list plus per-pass
failure oracle and remote map (the remote set is re-fetched every pass);
a pass folds the types in order through the transform-style per-file loop,
keeping each type's `remaining` files, and records the first uncaught
error as its abort. -/

structure LoadArgs where
  temp : Bool
  delete_after_import : Bool
  allow_failure : Bool
  retries : Nat
deriving DecidableEq

/-- The argument munging at the top of `system_load`. -/
def system_load_args (stubborn temp delete_after_import allow_failure : Bool)
    (retries : Nat) : LoadArgs :=
  if stubborn then
    ⟨true, true, true, if retries = 0 then 5 else retries⟩
  else ⟨temp, delete_after_import, allow_failure, retries⟩

/-- One resource type as the driver sees it: its per-pass call environment
and remote map, and its current on-disk file list. -/
structure TypeState where
  env : Nat → CallEnv
  map : Nat → List (String × TDoc)
  files : List TFile

/-- The outcome of one pass of the driver's inner `for type_name in types`
loop: the load outputs of the types actually run, the per-type states
afterwards (a type not reached because an earlier load raised keeps its
old files), and the uncaught exception that ended the pass early, if any. -/
structure PassOut where
  outs : List LoadOut
  types : List TypeState
  aborted : Option LoadErr

/-- One pass: run every requested type's load in order; an uncaught
exception stops the pass at the failing type (its already-unlinked files
stay gone — `remaining` is the disk state at the raise). -/
def passTypes (af di : Bool) (i : Nat) : List TypeState → PassOut
  | [] => ⟨[], [], none⟩
  | t :: rest =>
    let out := loadFiles (t.env i) (t.map i) af di t.files
    match out.outcome with
    | Except.ok _ =>
      let po := passTypes af di i rest
      ⟨out :: po.outs, ⟨t.env, t.map, out.remaining⟩ :: po.types, po.aborted⟩
    | Except.error e =>
      ⟨[out], ⟨t.env, t.map, out.remaining⟩ :: rest, some e⟩

/-- Python `for _ in range(retries + 1): for type in types:
controller.load(...)`, started at pass index `i` with `n` passes left: the
passes actually performed, in order. A pass that raised is the last one
(partially performed); no further pass runs. -/
def runPasses (af di : Bool) : Nat → Nat → List TypeState → List PassOut
  | _, 0, _ => []
  | i, n + 1, types =>
    let po := passTypes af di i types
    match po.aborted with
    | some _ => [po]
    | none => po :: runPasses af di (i + 1) n po.types

/-- `Stacker.system_load` after argument munging: the pass loop on the
requested types. -/
def system_load (args : LoadArgs) (types0 : List TypeState) : List PassOut :=
  runPasses args.allow_failure args.delete_after_import 0 (args.retries + 1) types0

/-- The driver's type states after `n` more passes from pass index `i`,
or the uncaught exception that halted the run. -/
def driverRun (af di : Bool) : Nat → Nat → List TypeState → Except LoadErr (List TypeState)
  | _, 0, types => Except.ok types
  | i, n + 1, types =>
    let po := passTypes af di i types
    match po.aborted with
    | some e => Except.error e
    | none => driverRun af di (i + 1) n po.types
theorem loadFiles_remaining_sublist (env : CallEnv) (map : List (String × TDoc))
    (af di : Bool) : ∀ files : List TFile,
    List.Sublist (loadFiles env map af di files).remaining files := by
  intro files
  induction files with
  | nil => simp [loadFiles]
  | cons f rest ih =>
    rw [loadFiles]
    rcases hone : loadOne env map f with ⟨tr, res⟩
    cases res with
    | success =>
      cases di
      · exact List.Sublist.cons₂ f ih
      · exact List.Sublist.cons f ih
    | httpFail =>
      cases af
      · exact List.Sublist.refl _
      · exact List.Sublist.cons₂ f ih
    | keyFail => exact List.Sublist.refl _

theorem loadFiles_successes_mem (env : CallEnv) (map : List (String × TDoc))
    (af di : Bool) : ∀ (files : List TFile) (f : TFile),
    f ∈ (loadFiles env map af di files).successes → f ∈ files := by
  intro files
  induction files with
  | nil => intro f h; simp [loadFiles] at h
  | cons g rest ih =>
    intro f h
    rw [loadFiles] at h
    rcases hone : loadOne env map g with ⟨tr, res⟩
    rw [hone] at h
    cases res with
    | success =>
      rcases List.mem_cons.mp h with h' | h'
      · simp [h']
      · exact List.mem_cons_of_mem _ (ih f h')
    | httpFail =>
      cases af
      · simp only at h
        exact absurd h (by simp)
      · exact List.mem_cons_of_mem _ (ih f h)
    | keyFail =>
      exact absurd h (by simp)

theorem loadFiles_success_not_remaining (env : CallEnv) (map : List (String × TDoc))
    (af : Bool) : ∀ (files : List TFile) (f : TFile),
    (files.map Prod.fst).Nodup →
    f ∈ (loadFiles env map af true files).successes →
    f.1 ∉ (loadFiles env map af true files).remaining.map Prod.fst := by
  intro files
  induction files with
  | nil => intro f _ h; simp [loadFiles] at h
  | cons g rest ih =>
    intro f hnd h
    have hg : g.1 ∉ rest.map Prod.fst := (List.nodup_cons.mp (by simpa using hnd)).1
    have hnd' : (rest.map Prod.fst).Nodup := (List.nodup_cons.mp (by simpa using hnd)).2
    have hmem_rest : ∀ f' : TFile, f' ∈ (loadFiles env map af true rest).remaining →
        f' ∈ rest := fun f' hf' =>
      (loadFiles_remaining_sublist env map af true rest).subset hf'
    rw [loadFiles] at h ⊢
    generalize loadOne env map g = pr at h ⊢
    rcases pr with ⟨tr, res⟩
    cases res with
    | success =>
      replace h : f ∈ g :: (loadFiles env map af true rest).successes := h
      rcases List.mem_cons.mp h with h' | h'
      · subst h'
        show f.1 ∉ List.map Prod.fst (loadFiles env map af true rest).remaining
        intro hmemids
        obtain ⟨x, hx, hx1⟩ := List.mem_map.mp hmemids
        exact hg (List.mem_map.mpr ⟨x, hmem_rest x hx, hx1⟩)
      · show f.1 ∉ List.map Prod.fst (loadFiles env map af true rest).remaining
        exact ih f hnd' h'
    | httpFail =>
      cases af
      · exact absurd (show f ∈ ([] : List TFile) from h) (by simp)
      · replace h : f ∈ (loadFiles env map true true rest).successes := h
        show f.1 ∉ List.map Prod.fst (g :: (loadFiles env map true true rest).remaining)
        intro hmemids
        rw [List.map_cons] at hmemids
        rcases List.mem_cons.mp hmemids with h' | h'
        · have hf : f ∈ rest := loadFiles_successes_mem env map true true rest f h
          exact hg (h' ▸ List.mem_map.mpr ⟨f, hf, rfl⟩)
        · exact ih f hnd' h h'
    | keyFail =>
      exact absurd (show f ∈ ([] : List TFile) from h) (by simp)

/-- A pass that raised no uncaught exception ran every type, replacing each
type's files with its load's `remaining`. -/
theorem passTypes_ok (af di : Bool) (i : Nat) :
    ∀ types : List TypeState, (passTypes af di i types).aborted = none →
      List.Forall₂
        (fun t t' =>
          t' = ⟨t.env, t.map, (loadFiles (t.env i) (t.map i) af di t.files).remaining⟩)
        types (passTypes af di i types).types := by
  intro types
  induction types with
  | nil => intro _; exact List.Forall₂.nil
  | cons t rest ih =>
    intro hab
    rw [passTypes] at hab ⊢
    generalize (loadFiles (t.env i) (t.map i) af di t.files).outcome = oc at hab ⊢
    cases oc with
    | ok u => exact List.Forall₂.cons rfl (ih hab)
    | error e => exact absurd hab (by simp)

/-- Pointwise composition of two `Forall₂` relations through a middle
list. -/
theorem forall2_comp {α β γ : Type} {R : α → β → Prop} {S : β → γ → Prop}
    {T : α → γ → Prop} (h : ∀ a b c, R a b → S b c → T a c) :
    ∀ {l1 : List α} {l2 : List β} {l3 : List γ},
      List.Forall₂ R l1 l2 → List.Forall₂ S l2 l3 → List.Forall₂ T l1 l3 := by
  intro l1 l2 l3 h12 h23
  induction h12 generalizing l3 with
  | nil =>
    cases h23
    exact List.Forall₂.nil
  | cons hab h12' ih =>
    cases h23 with
    | cons hbc h23' => exact List.Forall₂.cons (h _ _ _ hab hbc) (ih h23')

/-- Every list is pointwise env/map-preserving and file-shrinking related
to itself. -/
theorem forall2_shrink_refl :
    ∀ l : List TypeState,
      List.Forall₂ (fun t t' => t'.env = t.env ∧ t'.map = t.map ∧
        List.Sublist t'.files t.files) l l := by
  intro l
  induction l with
  | nil => exact List.Forall₂.nil
  | cons t rest ih =>
    exact List.Forall₂.cons ⟨rfl, rfl, List.Sublist.refl _⟩ ih

/-- A run that survives `n` passes performed exactly `n` passes. -/
theorem runPasses_length_of_ok (af di : Bool) :
    ∀ (n i : Nat) (types st : List TypeState),
      driverRun af di i n types = Except.ok st →
      (runPasses af di i n types).length = n := by
  intro n
  induction n with
  | zero => intro i types st _; rfl
  | succ n ih =>
    intro i types st h
    rw [driverRun] at h
    rw [runPasses]
    generalize hab : (passTypes af di i types).aborted = ab at h ⊢
    cases ab with
    | some e => exact absurd h (by simp)
    | none =>
      simp only [List.length_cons]
      rw [ih (i + 1) (passTypes af di i types).types st h]

/-- Across every reached span of passes, each type keeps its environment
and remote-map functions and its file list only shrinks. -/
theorem driverRun_shrink (af di : Bool) :
    ∀ (n i : Nat) (types st : List TypeState),
      driverRun af di i n types = Except.ok st →
      List.Forall₂ (fun t t' => t'.env = t.env ∧ t'.map = t.map ∧
        List.Sublist t'.files t.files) types st := by
  intro n
  induction n with
  | zero =>
    intro i types st h
    rw [driverRun] at h
    cases h
    exact forall2_shrink_refl types
  | succ n ih =>
    intro i types st h
    rw [driverRun] at h
    generalize hab : (passTypes af di i types).aborted = ab at h
    cases ab with
    | some e => exact absurd h (by simp)
    | none =>
      have hstep := passTypes_ok af di i types hab
      have hrest := ih (i + 1) (passTypes af di i types).types st h
      refine forall2_comp ?_ hstep hrest
      rintro t t' t'' rfl ⟨he, hm, hs⟩
      exact ⟨he, hm, List.Sublist.trans hs
        (loadFiles_remaining_sublist (t.env i) (t.map i) af di t.files)⟩

/-- Whenever the driver performs at least one pass from some state and
survives to a later reached state, every file whose import succeeded in
that first pass is gone from the later state's file list (it was unlinked
at its first successful import and files never reappear), so no later pass
re-attempts it. -/
theorem driverRun_no_reattempt (af : Bool) (i n : Nat) :
    ∀ (types st' : List TypeState),
      driverRun af true i (n + 1) types = Except.ok st' →
      List.Forall₂ (fun t t' =>
        (t.files.map Prod.fst).Nodup →
        ∀ f ∈ (loadFiles (t.env i) (t.map i) af true t.files).successes,
          f.1 ∉ t'.files.map Prod.fst) types st' := by
  intro types st' h
  rw [driverRun] at h
  generalize hab : (passTypes af true i types).aborted = ab at h
  cases ab with
  | some e => exact absurd h (by simp)
  | none =>
    have hstep := passTypes_ok af true i types hab
    have hrest := driverRun_shrink af true n (i + 1) (passTypes af true i types).types st' h
    refine forall2_comp ?_ hstep hrest
    rintro t t' t'' rfl ⟨he, hm, hs⟩
    intro hnd f hf hmem
    refine loadFiles_success_not_remaining (t.env i) (t.map i) af t.files f hnd hf ?_
    exact (hs.map Prod.fst).subset hmem

/-- C2 (counterexample to the claim as stated): a stubborn `system_load`
does not always perform 6 passes — the pass loop has no exception handler,
so the uncaught `KeyError` raised when a local transform has a top-level
key absent from the remote transform of the same id halts the whole run
during the first pass: one (partial) pass is performed, not 6. -/
theorem system_load_stubborn_counterexample :
    (system_load (system_load_args true false false false 0)
      [⟨fun _ => noFailEnv, fun _ => [("x", [])],
        [("x", [("zz", Json.num 2)])]⟩]).length = 1 ∧
    (system_load (system_load_args true false false false 0)
      [⟨fun _ => noFailEnv, fun _ => [("x", [])],
        [("x", [("zz", Json.num 2)])]⟩]).length ≠ 6 := by
  exact ⟨rfl, by decide⟩

/-- C2 (amended): `system_load` with `stubborn=true` sets
`delete_after_import`, `temp` and `allow_failure` to true and turns
`retries` into 5 unless an explicit (nonzero) retries value was given, in
which case that value is used (`if not retries: retries = 5`, default
`retries=0`). With no explicit retries, exactly 6 total passes over the
requested types are performed provided no uncaught exception aborts the
run (an aborting load halts the whole run with fewer passes — see the
counterexample); across every span of passes the run actually reaches,
each type keeps its configuration and its file list only shrinks; and each
record's local file is deleted immediately after its first successful
import, so a file that imports successfully in one pass is absent from
every later reached state and never re-attempted. -/
theorem system_load_stubborn :
    (∀ (temp di af : Bool) (r : Nat),
      system_load_args true temp di af r
        = ⟨true, true, true, if r = 0 then 5 else r⟩) ∧
    (∀ (temp di af : Bool) (types0 st : List TypeState),
      driverRun true true 0 6 types0 = Except.ok st →
      (system_load (system_load_args true temp di af 0) types0).length = 6) ∧
    (∀ (af di : Bool) (n i : Nat) (types st : List TypeState),
      driverRun af di i n types = Except.ok st →
      List.Forall₂ (fun t t' => t'.env = t.env ∧ t'.map = t.map ∧
        List.Sublist t'.files t.files) types st) ∧
    (∀ (af : Bool) (i n : Nat) (types st' : List TypeState),
      driverRun af true i (n + 1) types = Except.ok st' →
      List.Forall₂ (fun t t' =>
        (t.files.map Prod.fst).Nodup →
        ∀ f ∈ (loadFiles (t.env i) (t.map i) af true t.files).successes,
          f.1 ∉ t'.files.map Prod.fst) types st') :=
  ⟨fun _ _ _ _ => rfl,
   fun _ _ _ types0 st h => runPasses_length_of_ok true true 6 0 types0 st h,
   fun af di n i types st h => driverRun_shrink af di n i types st h,
   fun af i n types st' h => driverRun_no_reattempt af i n types st' h⟩

/-- Witness: one type whose single file imports successfully in the first
pass — the run survives all 6 passes, and the file is gone from the state
after pass 1, so no later pass re-attempts it. -/
theorem system_load_stubborn_witness :
    (system_load (system_load_args true false false false 0)
      [⟨fun _ => noFailEnv, fun _ => [], [("x", [])]⟩]).length = 6 ∧
    ("x" : String) ∉ (loadFiles noFailEnv [] true true
      [("x", [])]).remaining.map Prod.fst := by
  constructor
  · exact system_load_stubborn.2.1 false false false
      [⟨fun _ => noFailEnv, fun _ => [], [("x", [])]⟩]
      [⟨fun _ => noFailEnv, fun _ => [], []⟩] rfl
  · have h := system_load_stubborn.2.2.2 true 0 0
      [⟨fun _ => noFailEnv, fun _ => [], [("x", [])]⟩]
      [⟨fun _ => noFailEnv, fun _ => [], []⟩] rfl
    rcases h with _ | ⟨hrel, _⟩
    exact hrel (by simp) ("x", []) (List.mem_singleton.mpr rfl)
